import Mathlib

/-!
# Verification of the jingyun-tempo-strike gameplay core

A shallow embedding, over exact rationals, of the real-time gameplay engine of
the gesture-controlled rhythm game:

* chart generation (`src/constants.ts`, provided as `src/unnamed/part_000`):
  `generateDemoChart` and its per-beat emission step;
* the per-frame scheduler/judgement loop of `GameScene.tsx` (`useFrame`):
  note admission, miss expiry, and hit detection;
* the session state machine of the application component appended to
  `Note.tsx`: `handleNoteHit` / `handleNoteMiss`;
* the hand-signal conditioner of `useMediaPipe.ts`: `mapHandToWorld` and
  `processResults`.

JavaScript numbers are modelled as `ℚ` (every constant appearing in the
sources — 1.5, 1.2, 0.6, 1.1, 60/128, … — is exactly representable as a
binary double, and the arithmetic performed on them in the scenarios proved
below stays exact, so `ℚ` agrees with the float semantics there).
The Euclidean-distance comparison `handPos.distanceTo(notePos) < 1.1` is
embedded as the equivalent squared comparison `distSq handPos notePos <
(11/10)^2`, which avoids square roots while deciding exactly the same
predicate.  The hexagonal lane anchor `getLanePosition` uses `cos`/`sin` of
multiples of π/3, whose values are irrational and play no role in any claim;
the judgement loop is therefore parameterised by the lane-anchor function
`lanePos : ℕ → ℚ × ℚ` standing for `getLanePosition`.
-/

/-- Hand assignment of a note (`type` field of `NoteData` in the source,
`'left' | 'right'`). -/
inductive Hand where
  | left : Hand
  | right : Hand
deriving DecidableEq, Repr

/-- `CutDirection` enumeration from `types.ts`; generated charts only ever use
`any`, and collision ignores it. -/
inductive CutDirection where
  | up : CutDirection
  | down : CutDirection
  | left : CutDirection
  | right : CutDirection
  | any : CutDirection
deriving DecidableEq, Repr

/-- `NoteData` from the source: immutable identity fields (`id`, `time`,
`lineIndex`, `type`, `cutDirection`) plus the mutable judgement flags
(`hit`, `hitTime`, `missed`).  The string id `note-${idCount}` is embedded as
the counter value `idCount : ℕ`. -/
structure NoteData where
  id : ℕ
  time : ℚ
  lineIndex : ℕ
  type : Hand
  cutDirection : CutDirection
  hit : Bool := false
  hitTime : Option ℚ := none
  missed : Bool := false
deriving DecidableEq, Repr

/-- 3-dimensional vector over `ℚ`, standing for `THREE.Vector3`. -/
structure Vec3 where
  x : ℚ
  y : ℚ
  z : ℚ
deriving DecidableEq, Repr

/-- Squared Euclidean distance between two points; `a.distanceTo b < r` in the
source is embedded as `distSq a b < r^2`. -/
def distSq (a b : Vec3) : ℚ :=
  (a.x - b.x) ^ 2 + (a.y - b.y) ^ 2 + (a.z - b.z) ^ 2

/-- `v1.lerpVectors(a, b, t)` of `THREE.Vector3`: the point `a + (b - a) * t`. -/
def lerpVectors (a b : Vec3) (t : ℚ) : Vec3 :=
  ⟨a.x + (b.x - a.x) * t, a.y + (b.y - a.y) * t, a.z + (b.z - a.z) * t⟩

namespace Constants

/-- `SPAWN_Z = -30` — depth at which notes spawn. -/
def SPAWN_Z : ℚ := -30

/-- `PLAYER_Z = 0` — nominal hit depth. -/
def PLAYER_Z : ℚ := 0

/-- `MISS_Z = 5` — depth beyond which an unresolved note is missed. -/
def MISS_Z : ℚ := 5

/-- `NOTE_SPEED = 12` — units of depth travelled per second. -/
def NOTE_SPEED : ℚ := 12

/-- `SONG_BPM = 128` — fixed tempo of the demo chart generator. -/
def SONG_BPM : ℚ := 128

end Constants

/-! ## Hand signal conditioner (`useMediaPipe.ts`) -/

/-- `mapHandToWorld` from `useMediaPipe.ts`: maps a normalized detector
coordinate `(x, y)` into play space.  `GAME_X_RANGE = 7.5`,
`GAME_Y_RANGE = 6.0`, `Y_OFFSET = 1.2`; the returned y is clamped below by
`0.1` (`Math.max(0.1, worldY)`) and z is `-Math.max(0, worldY * 0.1)`. -/
def mapHandToWorld (x y : ℚ) : Vec3 :=
  let GAME_X_RANGE : ℚ := 15 / 2
  let GAME_Y_RANGE : ℚ := 6
  let Y_OFFSET : ℚ := 6 / 5
  let worldX := (1 / 2 - x) * GAME_X_RANGE
  let worldY := (1 - y) * GAME_Y_RANGE - GAME_Y_RANGE / 2 + Y_OFFSET
  let worldZ := -(max 0 (worldY * (1 / 10)))
  ⟨worldX, max (1 / 10) worldY, worldZ⟩

/-- The mutable record held in `handPositionsRef`: current smoothed positions
(`none` when the hand is not detected), last known positions, velocities
(zero-initialized) and the last frame timestamp in milliseconds. -/
structure HandState where
  left : Option Vec3 := none
  right : Option Vec3 := none
  lastLeft : Option Vec3 := none
  lastRight : Option Vec3 := none
  leftVelocity : Vec3 := ⟨0, 0, 0⟩
  rightVelocity : Vec3 := ⟨0, 0, 0⟩
  lastTimestamp : ℚ := 0
deriving DecidableEq, Repr

/-- The initial value of `handPositionsRef` in `useMediaPipe.ts`. -/
def initialHandState : HandState := {}

/-- One hand's share of `processResults`: given the previous smoothed position
`prev`, the previous velocity, the raw mapped sample of this frame (`none`
when the hand is absent) and `deltaTime` in seconds, produce the new
smoothed position and velocity.  `LERP = 0.6`; velocity is recomputed only
when `deltaTime > 0.001` and otherwise retains its previous value; when
`prev` is absent the raw sample is used unsmoothed and the velocity is left
untouched. -/
def condition (prev : Option Vec3) (prevVel : Vec3) (raw : Option Vec3)
    (deltaTime : ℚ) : Option Vec3 × Vec3 :=
  match raw with
  | none => (none, prevVel)
  | some r =>
    match prev with
    | none => (some r, prevVel)
    | some p =>
      let smoothed := lerpVectors p r (3 / 5)
      let vel :=
        if deltaTime > 1 / 1000 then
          ⟨(smoothed.x - p.x) / deltaTime, (smoothed.y - p.y) / deltaTime,
            (smoothed.z - p.z) / deltaTime⟩
        else prevVel
      (some smoothed, vel)

/-- The `lastLeft` / `lastRight` update of `processResults`:
`s.lastLeft = s.left ? s.left.clone() : newLeft.clone()` (where `newLeft`
has already been smoothed in place when `s.left` was present); when the hand
is absent this frame the field is left unchanged. -/
def lastUpdate (prev old : Option Vec3) (smoothed : Option Vec3) : Option Vec3 :=
  match smoothed with
  | none => old
  | some s =>
    match prev with
    | some p => some p
    | none => some s

/-- `processResults` from `useMediaPipe.ts`, taking the raw mapped world
positions of the two hands detected this frame (`none` for an absent hand)
and the frame timestamp `now` in milliseconds.  Updates both hands through
`condition`, sets an absent hand's position to `none`, and records the
timestamp. -/
def processResults (st : HandState) (newLeftRaw newRightRaw : Option Vec3)
    (now : ℚ) : HandState :=
  let deltaTime := (now - st.lastTimestamp) / 1000
  let (l, lv) := condition st.left st.leftVelocity newLeftRaw deltaTime
  let (r, rv) := condition st.right st.rightVelocity newRightRaw deltaTime
  { left := l
    right := r
    lastLeft := lastUpdate st.left st.lastLeft l
    lastRight := lastUpdate st.right st.lastRight r
    leftVelocity := lv
    rightVelocity := rv
    lastTimestamp := now }

/-! ## Session state machine (application component) -/

/-- `GameStatus` from `types.ts`. -/
inductive GameStatus where
  | loading : GameStatus
  | idle : GameStatus
  | playing : GameStatus
  | paused : GameStatus
  | gameOver : GameStatus
  | victory : GameStatus
deriving DecidableEq, Repr

/-- The session state owned by the application component: status, score,
combo and health. -/
structure Session where
  status : GameStatus
  score : ℕ
  combo : ℕ
  health : ℚ
deriving DecidableEq, Repr

/-- The state set by `startGame`: score 0, combo 0, health 100, playing. -/
def startSession : Session :=
  { status := .playing, score := 0, combo := 0, health := 100 }

/-- `handleNoteHit` from the application component:
`score += 100`, `combo += 1`, `health = Math.min(100, health + 1.5)`. -/
def handleNoteHit (s : Session) : Session :=
  { s with
    score := s.score + 100
    combo := s.combo + 1
    health := min 100 (s.health + 3 / 2) }

/-- `handleNoteMiss` from the application component: `combo = 0`, then
`health -= 10`; if the new health is `≤ 0` the status becomes `game_over`
and health is clamped to 0. -/
def handleNoteMiss (s : Session) : Session :=
  if s.health - 10 ≤ 0 then
    { s with combo := 0, health := 0, status := .gameOver }
  else
    { s with combo := 0, health := s.health - 10 }

/-! ## Chart generation (`generateDemoChart`) -/

/-- The JavaScript `%` operator on the positive operands used by the
generator (`i % 3`, `i % 2`, `i % 4` with `i ≥ 4 > 0`): for `a, b > 0` the
float remainder equals `a - b * ⌊a / b⌋`. -/
def qmod (a b : ℚ) : ℚ := a - b * ⌊a / b⌋

/-- One iteration of the `generateDemoChart` loop body at beat index `i`:
`time = i * beatTime`, `pattern = Math.floor(i / 8) % 4`, then one of the
four pattern rules.  `rng : ℕ → ℚ` is the stream of `Math.random()` draws
(values in `[0, 1)`), consumed at `rngIdx`; the result is the emitted notes
together with the advanced `idCount` and `rngIdx`. -/
def genStep (rng : ℕ → ℚ) (beatTime i : ℚ) (idCount rngIdx : ℕ) :
    List NoteData × ℕ × ℕ :=
  let time := i * beatTime
  let pattern : ℤ := ⌊i / 8⌋ % 4
  if pattern = 0 then
    let laneIndex : ℤ := ⌊i⌋ % 6
    ([{ id := idCount, time := time, lineIndex := laneIndex.toNat,
        type := if laneIndex < 3 then .left else .right,
        cutDirection := .any }], idCount + 1, rngIdx)
  else if pattern = 1 then
    if qmod i 3 = 0 then
      ([{ id := idCount, time := time, lineIndex := 0, type := .left,
          cutDirection := .any },
        { id := idCount + 1, time := time, lineIndex := 3, type := .right,
          cutDirection := .any }], idCount + 2, rngIdx)
    else ([], idCount, rngIdx)
  else if pattern = 2 then
    if qmod i 2 = 0 then
      let idx : ℕ := (⌊rng rngIdx * 6⌋).toNat
      ([{ id := idCount, time := time, lineIndex := idx,
          type := if rng (rngIdx + 1) > 1 / 2 then .left else .right,
          cutDirection := .any }], idCount + 1, rngIdx + 2)
    else ([], idCount, rngIdx)
  else
    if qmod i 4 = 0 then
      ([{ id := idCount, time := time, lineIndex := 1, type := .left,
          cutDirection := .any },
        { id := idCount + 1, time := time, lineIndex := 4, type := .right,
          cutDirection := .any }], idCount + 2, rngIdx)
    else ([], idCount, rngIdx)

/-- The `for (let i = 4; i < 200; i += 1.5)` loop of `generateDemoChart`,
indexed by the iteration counter `k` (so `i = 4 + 1.5 * k`; both `1.5` and
all reached values of `i` are exact binary doubles, so the incremented float
loop variable equals this closed form). -/
def genLoop (rng : ℕ → ℚ) (beatTime : ℚ) (k idCount rngIdx : ℕ) :
    List NoteData :=
  if h : (4 + 3 / 2 * (k : ℚ)) < 200 then
    let out := genStep rng beatTime (4 + 3 / 2 * (k : ℚ)) idCount rngIdx
    out.1 ++ genLoop rng beatTime (k + 1) out.2.1 out.2.2
  else []
termination_by 131 - k
decreasing_by
  have hk : (k : ℚ) < 131 := by linarith
  have hk' : k < 131 := by exact_mod_cast hk
  omega

/-- `generateDemoChart` generalized over the tempo, as the spec describes it:
`beatTime = 60 / bpm`, the loop from beat 4 to 200 in steps of 1.5, and the
final `notes.sort((a, b) => a.time - b.time)` embedded as a merge sort on
`time`.  The source itself has no tempo parameter (it reads the constant
`SONG_BPM = 128`) and no failure path; this generalization replaces the
constant by the argument `bpm` and changes nothing else. -/
def generateDemoChartBpm (bpm : ℚ) (rng : ℕ → ℚ) : List NoteData :=
  (genLoop rng (60 / bpm) 0 0 0).mergeSort fun a b => decide (a.time ≤ b.time)

/-- `generateDemoChart` from the source: the generator at the fixed tempo
`SONG_BPM = 128`, parameterised only by the `Math.random()` stream. -/
def generateDemoChart (rng : ℕ → ℚ) : List NoteData :=
  generateDemoChartBpm Constants.SONG_BPM rng

/-! ## Scheduler and judgement (`GameScene.tsx` `useFrame`) -/

/-- The conditioned hand positions the judgement loop reads
(`handPositionsRef.current.left` / `.right`). -/
structure Hands where
  left : Option Vec3
  right : Option Vec3
deriving DecidableEq, Repr

/-- Events emitted by the frame loop: `onNoteHit` / `onNoteMiss`, identified
by the note id. -/
inductive GameEvent where
  | hit : ℕ → GameEvent
  | miss : ℕ → GameEvent
deriving DecidableEq, Repr

/-- `spawnAheadTime = Math.abs(SPAWN_Z - PLAYER_Z) / NOTE_SPEED` — the spawn
lookahead (`|-30 - 0| / 12 = 5/2` seconds). -/
def spawnAheadTime : ℚ := |Constants.SPAWN_Z - Constants.PLAYER_Z| / Constants.NOTE_SPEED

/-- The state of `GameScene` that the frame loop advances: the chart (whose
entries carry the mutable judgement flags; the active list holds indices
into it, modelling the shared references of the source), the active list
`activeNotesRef` and the read index `nextNoteIndexRef`. -/
structure SceneState where
  chart : List NoteData
  active : List ℕ
  nextNoteIndex : ℕ
deriving DecidableEq, Repr

/-- The admission `while` loop: while the next unread chart note satisfies
`nextNote.time - spawnAheadTime <= time`, push its index onto the active
list and advance the read index. -/
def admitLoop (chart : List NoteData) (time : ℚ) (idx : ℕ) (active : List ℕ) :
    ℕ × List ℕ :=
  if h : idx < chart.length then
    if (chart.get ⟨idx, h⟩).time - spawnAheadTime ≤ time then
      admitLoop chart time (idx + 1) (active ++ [idx])
    else (idx, active)
  else (idx, active)
termination_by chart.length - idx

/-- `note.type === 'left' ? hands.left : hands.right` — the conditioned hand
position matching the note's required hand. -/
def handFor (hands : Hands) : Hand → Option Vec3
  | .left => hands.left
  | .right => hands.right

/-- `currentZ = PLAYER_Z - (note.time - time) * NOTE_SPEED` — the note's depth
at song time `time`. -/
def currentZ (time : ℚ) (note : NoteData) : ℚ :=
  Constants.PLAYER_Z - (note.time - time) * Constants.NOTE_SPEED

/-- `vecA.set(lanePos.x, lanePos.y, currentZ)` — the note's anchor point: its
lane position combined with its current depth. -/
def noteAnchor (lanePos : ℕ → ℚ × ℚ) (note : NoteData) (z : ℚ) : Vec3 :=
  ⟨(lanePos note.lineIndex).1, (lanePos note.lineIndex).2, z⟩

/-- The per-note body of the judgement loop: given the lane-anchor function
(standing for `getLanePosition`), the current hand positions and the song
time, produce the updated note, whether it stays in the active list
(`splice` removes it otherwise) and the event emitted, exactly following the
source: notes already `hit`/`missed` are skipped; then
`currentZ = PLAYER_Z - (note.time - time) * NOTE_SPEED`; if
`currentZ > MISS_Z` the note is missed; else if
`PLAYER_Z - 1.2 < currentZ < PLAYER_Z + 0.6`, the hand matching `note.type`
is read and, when present and within distance `1.1` of the note anchor
`(lanePos.x, lanePos.y, currentZ)`, the note is hit with
`hitTime = time`. -/
def judgeOne (lanePos : ℕ → ℚ × ℚ) (hands : Hands) (time : ℚ)
    (note : NoteData) : NoteData × Bool × Option GameEvent :=
  if note.hit || note.missed then (note, true, none)
  else if currentZ time note > Constants.MISS_Z then
    ({ note with missed := true }, false, some (.miss note.id))
  else if currentZ time note > Constants.PLAYER_Z - 6 / 5 ∧
      currentZ time note < Constants.PLAYER_Z + 3 / 5 then
    match handFor hands note.type with
    | some handPos =>
      if distSq handPos (noteAnchor lanePos note (currentZ time note)) < (11 / 10) ^ 2 then
        ({ note with hit := true, hitTime := some time }, false, some (.hit note.id))
      else (note, true, none)
    | none => (note, true, none)
  else (note, true, none)

/-- The judgement `for` loop of `useFrame`, which walks the active list from
its last element down to its first, splicing out notes that get resolved.
The head of `active` (index 0 of the array) is therefore processed last:
the recursion first processes the tail, then applies `judgeOne` to the
head's note in the resulting chart.  Returns the updated chart, the
surviving active list (original relative order) and the events in emission
order. -/
def judgeLoop (lanePos : ℕ → ℚ × ℚ) (hands : Hands) (time : ℚ) :
    List NoteData → List ℕ → List NoteData × List ℕ × List GameEvent
  | chart, [] => (chart, [], [])
  | chart, idx :: rest =>
    let out := judgeLoop lanePos hands time chart rest
    match out.1[idx]? with
    | some note =>
      let res := judgeOne lanePos hands time note
      (out.1.set idx res.1,
       if res.2.1 then idx :: out.2.1 else out.2.1,
       out.2.2 ++ res.2.2.toList)
    | none => (out.1, idx :: out.2.1, out.2.2)

/-- One `useFrame` tick in the `playing` state at song time `time`: the
admission loop followed by the judgement loop.  Returns the new scene state
and the events emitted this tick. -/
def frameStep (lanePos : ℕ → ℚ × ℚ) (hands : Hands) (time : ℚ)
    (st : SceneState) : SceneState × List GameEvent :=
  let admitted := admitLoop st.chart time st.nextNoteIndex st.active
  let judged := judgeLoop lanePos hands time st.chart admitted.2
  (⟨judged.1, judged.2.1, admitted.1⟩, judged.2.2)

/-- Note-lifecycle invariant: `hit` and `missed` never both set, and `hitTime`
is set iff `hit` is set. -/
def NoteInv (n : NoteData) : Prop :=
  ¬(n.hit = true ∧ n.missed = true) ∧ (n.hitTime.isSome = true ↔ n.hit = true)

/-- How one judgement pass may change a note: the invariant is preserved and a
note already resolved (`hit` or `missed`) is left untouched. -/
def NoteRel (n n' : NoteData) : Prop :=
  (NoteInv n → NoteInv n') ∧ ((n.hit = true ∨ n.missed = true) → n' = n)

/-! ## Theorems -/

/-- C10: for every normalized detector input `(x, y)`, the hand-to-world
mapping `mapHandToWorld` returns a point whose y-component is at least `0.1`
and whose z-component is at most `0`: the mapping is a clamped transform. -/
theorem mapHandToWorld_clamped (x y : ℚ) :
    1 / 10 ≤ (mapHandToWorld x y).y ∧ (mapHandToWorld x y).z ≤ 0 := by
  unfold mapHandToWorld
  exact ⟨le_max_left _ _, neg_nonpos.mpr (le_max_left _ _)⟩

/-- C7: when a previous smoothed position exists for a hand, `processResults`
blends the new raw sample toward it by linear interpolation with factor 0.6
toward the new sample; with the previous smoothed position at the origin and
a new raw sample at `(10,0,0)` the updated smoothed position is `(6,0,0)`. -/
theorem conditioner_lerp (st : HandState) (p r : Vec3) (rr : Option Vec3)
    (now : ℚ) (hp : st.left = some p) :
    (processResults st (some r) rr now).left = some (lerpVectors p r (3 / 5)) ∧
      lerpVectors ⟨0, 0, 0⟩ ⟨10, 0, 0⟩ (3 / 5) = ⟨6, 0, 0⟩ := by
  constructor
  · simp [processResults, condition, hp]
  · show Vec3.mk _ _ _ = _
    norm_num

/-- Witness for C7: the conditioner applied to the previous smoothed position
`(0,0,0)` and raw sample `(10,0,0)`. -/
theorem conditioner_lerp_witness :
    (processResults { left := some ⟨0, 0, 0⟩ } (some ⟨10, 0, 0⟩) none 1000).left
        = some (lerpVectors ⟨0, 0, 0⟩ ⟨10, 0, 0⟩ (3 / 5)) ∧
      lerpVectors ⟨0, 0, 0⟩ ⟨10, 0, 0⟩ (3 / 5) = ⟨6, 0, 0⟩ :=
  conditioner_lerp { left := some ⟨0, 0, 0⟩ } ⟨0, 0, 0⟩ ⟨10, 0, 0⟩ none 1000 rfl

/-- C4: health stays within `[0,100]` under both events; each `Miss` resets
the combo to 0, subtracts 10 from health while positive, clamps at 0 and
transitions to `game_over` when the result would be `≤ 0`; each `Hit` adds
1.5 health capped at 100; from a fresh session (health 100), 7 consecutive
misses leave health exactly 30 (still playing) and 10 consecutive misses
drive health to 0 and force `game_over`. -/
theorem session_health (s : Session) :
    (0 ≤ s.health → s.health ≤ 100 →
      (0 ≤ (handleNoteMiss s).health ∧ (handleNoteMiss s).health ≤ 100) ∧
      (0 ≤ (handleNoteHit s).health ∧ (handleNoteHit s).health ≤ 100)) ∧
    (handleNoteMiss s).combo = 0 ∧
    (s.health - 10 > 0 →
      (handleNoteMiss s).health = s.health - 10 ∧ (handleNoteMiss s).status = s.status) ∧
    (s.health - 10 ≤ 0 →
      (handleNoteMiss s).health = 0 ∧ (handleNoteMiss s).status = .gameOver) ∧
    (handleNoteHit s).health = min 100 (s.health + 3 / 2) ∧
    handleNoteMiss^[7] startSession =
      { status := .playing, score := 0, combo := 0, health := 30 } ∧
    handleNoteMiss^[10] startSession =
      { status := .gameOver, score := 0, combo := 0, health := 0 } := by
  refine ⟨fun h0 h100 => ⟨?_, ?_, ?_⟩, ?_, fun hpos => ?_, fun hle => ?_, rfl,
    by with_unfolding_all rfl, by with_unfolding_all rfl⟩
  · unfold handleNoteMiss
    split
    · exact ⟨le_refl 0, by norm_num⟩
    · rename_i hgt
      push_neg at hgt
      refine ⟨le_of_lt hgt, ?_⟩
      show s.health - 10 ≤ 100
      linarith
  · exact le_min (by norm_num) (by linarith)
  · exact min_le_left _ _
  · unfold handleNoteMiss
    split <;> rfl
  · unfold handleNoteMiss
    split
    · rename_i h; exfalso; linarith
    · exact ⟨rfl, rfl⟩
  · unfold handleNoteMiss
    split
    · exact ⟨rfl, rfl⟩
    · rename_i h; exfalso; exact h hle

/-- Witness for C4: the clamping clauses applied to the fresh session. -/
theorem session_health_witness :
    ((0:ℚ) ≤ (startSession).health ∧ (startSession).health ≤ 100) ∧
      (0 ≤ (handleNoteMiss startSession).health ∧
        (handleNoteMiss startSession).health ≤ 100) := by
  have h := (session_health startSession).1 (by norm_num [startSession]) (by norm_num [startSession])
  exact ⟨⟨by norm_num [startSession], by norm_num [startSession]⟩, h.1⟩

/-- C9: at the fixed tempo `SONG_BPM = 128` (beat time `60/128 = 0.46875`),
the generator's loop body at beat index 4 (pattern 0) emits exactly one note
with `time = 4 × 0.46875 = 1.875`, `lineIndex = 4` and hand `right`;
that note is the head of the generated chart. -/
theorem genStep_beat4 (rng : ℕ → ℚ) (idCount rngIdx : ℕ) :
    genStep rng (60 / Constants.SONG_BPM) 4 idCount rngIdx =
      ([{ id := idCount, time := 15 / 8, lineIndex := 4, type := .right,
          cutDirection := .any }], idCount + 1, rngIdx) ∧
    (generateDemoChart fun _ => 0).head? =
      some { id := 0, time := 15 / 8, lineIndex := 4, type := .right,
             cutDirection := .any } := by
  constructor
  · with_unfolding_all rfl
  · with_unfolding_all rfl

/-- C5: every chart returned by `generateDemoChart` is sorted non-decreasing
by note time: for all positions `i ≤ j` in the returned sequence, the note
at `i` has `time` at most that of the note at `j` (for every stream of
random draws). -/
theorem generateDemoChart_sorted (rng : ℕ → ℚ) (i j : ℕ) (hij : i ≤ j)
    (a b : NoteData) (ha : (generateDemoChart rng)[i]? = some a)
    (hb : (generateDemoChart rng)[j]? = some b) : a.time ≤ b.time := by
  obtain ⟨hi, hai⟩ := List.getElem?_eq_some.mp ha
  obtain ⟨hj, hbj⟩ := List.getElem?_eq_some.mp hb
  rcases eq_or_lt_of_le hij with heq | hlt
  · subst heq
    rw [hai] at hbj
    rw [hbj]
  · have hp : List.Pairwise
        (fun a b : NoteData => (decide (a.time ≤ b.time)) = true)
        (generateDemoChart rng) := by
      unfold generateDemoChart generateDemoChartBpm
      refine List.sorted_mergeSort ?_ ?_ _
      · intro a b c h1 h2
        simp only [decide_eq_true_eq] at *
        linarith
      · intro a b
        simpa using le_total a.time b.time
    have hrel := List.pairwise_iff_getElem.mp hp i j hi hj hlt
    rw [hai, hbj] at hrel
    exact of_decide_eq_true hrel

/-- Witness for C5: the first two notes of a concretely generated chart. -/
theorem generateDemoChart_sorted_witness :
    (generateDemoChart fun _ => 0)[0]? =
      some { id := 0, time := 15 / 8, lineIndex := 4, type := .right,
             cutDirection := .any } ∧
    (generateDemoChart fun _ => 0)[1]? =
      some { id := 1, time := 165 / 64, lineIndex := 5, type := .right,
             cutDirection := .any } ∧
    ((15 : ℚ) / 8 ≤ 165 / 64) :=
  ⟨by with_unfolding_all rfl, by with_unfolding_all rfl,
    generateDemoChart_sorted (fun _ => 0) 0 1 (by norm_num)
      { id := 0, time := 15 / 8, lineIndex := 4, type := .right,
        cutDirection := .any }
      { id := 1, time := 165 / 64, lineIndex := 5, type := .right,
        cutDirection := .any }
      (by with_unfolding_all rfl) (by with_unfolding_all rfl)⟩

/-- Counterexample to C6: chart generation does not reject a non-positive
tempo.  At tempo `-1 ≤ 0` the (tempo-generalized) generator returns a
51-note chart instead of failing; the source has no error path at all. -/
theorem generateDemoChart_tempo_counterexample :
    (-1 : ℚ) ≤ 0 ∧ (generateDemoChartBpm (-1) fun _ => 0).length = 51 :=
  ⟨by norm_num, by with_unfolding_all rfl⟩

/-- C6 (amended): chart generation takes no tempo argument — it reads the
fixed constant `SONG_BPM = 128` — and has no failure path: even the
tempo-generalized generator returns a (nonempty) chart for every tempo,
including tempos `≤ 0`; no `InvalidConfiguration` rejection exists. -/
theorem generateDemoChart_no_tempo_rejection (bpm : ℚ) (rng : ℕ → ℚ) :
    generateDemoChart rng = generateDemoChartBpm Constants.SONG_BPM rng ∧
    Constants.SONG_BPM = 128 ∧
    generateDemoChartBpm bpm rng ≠ [] := by
  refine ⟨rfl, rfl, fun hnil => ?_⟩
  have hstep : ∀ (bt : ℚ) (idc ri : ℕ), (genStep rng bt 4 idc ri).1.length = 1 := by
    intro bt idc ri
    with_unfolding_all rfl
  simp only [generateDemoChartBpm] at hnil
  have hlen := congrArg List.length hnil
  rw [List.length_mergeSort] at hlen
  rw [genLoop.eq_def] at hlen
  norm_num at hlen
  have hof := congrArg List.length hlen.1
  rw [hstep] at hof
  simp at hof

/-- Counterexample to C8: on a reappearance frame (previous smoothed position
absent because the hand was lost) the reported velocity is not zero — it
retains the stale value from before the hand disappeared.  Frames: left hand
at the origin at t=1000ms, at `(10,0,0)` at t=2000ms (velocity becomes
`(6,0,0)`), absent at t=3000ms, reappearing at the origin at t=4000ms: the
position is the raw sample, but the velocity is still `(6,0,0) ≠ 0`. -/
theorem conditioner_reappear_counterexample :
    (processResults (processResults (processResults initialHandState
        (some ⟨0, 0, 0⟩) none 1000) (some ⟨10, 0, 0⟩) none 2000)
        none none 3000).left = none ∧
    (processResults (processResults (processResults (processResults
        initialHandState (some ⟨0, 0, 0⟩) none 1000) (some ⟨10, 0, 0⟩) none
        2000) none none 3000) (some ⟨0, 0, 0⟩) none 4000).left =
      some ⟨0, 0, 0⟩ ∧
    (processResults (processResults (processResults (processResults
        initialHandState (some ⟨0, 0, 0⟩) none 1000) (some ⟨10, 0, 0⟩) none
        2000) none none 3000) (some ⟨0, 0, 0⟩) none 4000).leftVelocity ≠
      ⟨0, 0, 0⟩ :=
  ⟨by with_unfolding_all rfl, by with_unfolding_all rfl,
    by with_unfolding_all decide⟩

/-- C8 (amended): on every frame on which a hand's previous smoothed position
is absent, the raw mapped position is used unsmoothed and the velocity is
not updated — it retains its previous value; starting from the
zero-initialized tracking state (the hand's very first appearance) that
retained velocity is zero. -/
theorem conditioner_first_frame (st : HandState) (raw : Vec3) (rr : Option Vec3)
    (now : ℚ) (h : st.left = none) :
    (processResults st (some raw) rr now).left = some raw ∧
    (processResults st (some raw) rr now).leftVelocity = st.leftVelocity ∧
    (∀ (raw2 : Vec3) (rr2 : Option Vec3) (now2 : ℚ),
      (processResults initialHandState (some raw2) rr2 now2).leftVelocity
        = ⟨0, 0, 0⟩) := by
  refine ⟨?_, ?_, fun raw2 rr2 now2 => ?_⟩ <;>
    simp [processResults, condition, h, initialHandState]

/-- Witness for C8 (amended): a first appearance from the initial state. -/
theorem conditioner_first_frame_witness :
    (processResults initialHandState (some ⟨1, 2, 3⟩) none 500).left =
      some ⟨1, 2, 3⟩ ∧
    (processResults initialHandState (some ⟨1, 2, 3⟩) none 500).leftVelocity =
      ⟨0, 0, 0⟩ :=
  ⟨(conditioner_first_frame initialHandState ⟨1, 2, 3⟩ none 500 rfl).1,
   (conditioner_first_frame initialHandState ⟨1, 2, 3⟩ none 500 rfl).2.1⟩

theorem judgeLoop_getElem_of_not_mem (lanePos : ℕ → ℚ × ℚ) (hands : Hands)
    (time : ℚ) :
    ∀ (active : List ℕ) (chart : List NoteData) (idx : ℕ), idx ∉ active →
      (judgeLoop lanePos hands time chart active).1[idx]? = chart[idx]? := by
  intro active
  induction active with
  | nil => intro chart idx _; rfl
  | cons a rest ih =>
    intro chart idx hmem
    have hne : a ≠ idx := fun h => hmem (h ▸ List.mem_cons_self a rest)
    have hrest : idx ∉ rest := fun h => hmem (List.mem_cons_of_mem a h)
    cases hsc : (judgeLoop lanePos hands time chart rest).1[a]? with
    | none => simp only [judgeLoop, hsc]; exact ih chart idx hrest
    | some na =>
      simp only [judgeLoop, hsc]
      rw [List.getElem?_set_ne hne]
      exact ih chart idx hrest

theorem judgeLoop_active_subset (lanePos : ℕ → ℚ × ℚ) (hands : Hands)
    (time : ℚ) :
    ∀ (active : List ℕ) (chart : List NoteData) (x : ℕ),
      x ∈ (judgeLoop lanePos hands time chart active).2.1 → x ∈ active := by
  intro active
  induction active with
  | nil => intro chart x h; exact absurd h (List.not_mem_nil x)
  | cons a rest ih =>
    intro chart x hx
    cases hsc : (judgeLoop lanePos hands time chart rest).1[a]? with
    | none =>
      simp only [judgeLoop, hsc] at hx
      rcases List.mem_cons.mp hx with h | h
      · exact h ▸ List.mem_cons_self a rest
      · exact List.mem_cons_of_mem a (ih chart x h)
    | some na =>
      simp only [judgeLoop, hsc] at hx
      by_cases hk : (judgeOne lanePos hands time na).2.1 = true
      · rw [if_pos hk] at hx
        rcases List.mem_cons.mp hx with h | h
        · exact h ▸ List.mem_cons_self a rest
        · exact List.mem_cons_of_mem a (ih chart x h)
      · rw [if_neg hk] at hx
        exact List.mem_cons_of_mem a (ih chart x hx)

theorem judgeLoop_spec (lanePos : ℕ → ℚ × ℚ) (hands : Hands) (time : ℚ) :
    ∀ (active : List ℕ) (chart : List NoteData) (idx : ℕ) (note : NoteData),
      active.Nodup → idx ∈ active → chart[idx]? = some note →
      (judgeLoop lanePos hands time chart active).1[idx]? =
          some (judgeOne lanePos hands time note).1 ∧
        (∀ e, (judgeOne lanePos hands time note).2.2 = some e →
          e ∈ (judgeLoop lanePos hands time chart active).2.2) ∧
        ((judgeOne lanePos hands time note).2.1 = false →
          idx ∉ (judgeLoop lanePos hands time chart active).2.1) := by
  intro active
  induction active with
  | nil => intro chart idx note _ hmem _; exact absurd hmem (List.not_mem_nil idx)
  | cons a rest ih =>
    intro chart idx note hnodup hmem hidx
    rcases List.mem_cons.mp hmem with heq | hmemr
    · subst heq
      have hnr : idx ∉ rest := (List.nodup_cons.mp hnodup).1
      have hout : (judgeLoop lanePos hands time chart rest).1[idx]? = some note :=
        (judgeLoop_getElem_of_not_mem lanePos hands time rest chart idx hnr).trans hidx
      have hlt : idx < (judgeLoop lanePos hands time chart rest).1.length :=
        (List.getElem?_eq_some.mp hout).1
      simp only [judgeLoop, hout]
      refine ⟨List.getElem?_set_self hlt, fun e he => ?_, fun hkeep => ?_⟩
      · exact List.mem_append_right _ (by simp [he])
      · rw [hkeep]
        simp only [Bool.false_eq_true, if_false]
        intro hc
        exact hnr (judgeLoop_active_subset lanePos hands time rest chart idx hc)
    · have hne : a ≠ idx := by
        intro h
        subst h
        exact (List.nodup_cons.mp hnodup).1 hmemr
      have ihh := ih chart idx note (List.nodup_cons.mp hnodup).2 hmemr hidx
      cases hsc : (judgeLoop lanePos hands time chart rest).1[a]? with
      | none =>
        simp only [judgeLoop, hsc]
        refine ⟨ihh.1, fun e he => ihh.2.1 e he, fun hkeep hc => ?_⟩
        rcases List.mem_cons.mp hc with h | h
        · exact hne h.symm
        · exact ihh.2.2 hkeep h
      | some na =>
        simp only [judgeLoop, hsc]
        refine ⟨?_, fun e he => ?_, fun hkeep => ?_⟩
        · rw [List.getElem?_set_ne hne]
          exact ihh.1
        · exact List.mem_append_left _ (ihh.2.1 e he)
        · have hnot := ihh.2.2 hkeep
          split
          · intro hc
            rcases List.mem_cons.mp hc with h | h
            · exact hne h.symm
            · exact hnot h
          · exact hnot

/-- C1: for every active, unresolved note whose current depth lies in the
asymmetric judgement window `(PLAYER_Z - 1.2, PLAYER_Z + 0.6)`: if the hand
matching the note's required hand is present within the hit radius `1.1` of
the note's anchor, the judgement loop marks the note hit with
`hitTime = time` and emits a `Hit` event, removing it from the active list;
in particular a note at its nominal hit depth (`time = note.time`, depth
`PLAYER_Z`) with a hand coincident with its anchor is hit, and with no
matching hand present the note is never hit this tick and, once
`time > note.time + MISS_Z / NOTE_SPEED`, is marked missed with a `Miss`
event and removed. -/
theorem judgement_engine (lanePos : ℕ → ℚ × ℚ) (hands : Hands) (time : ℚ)
    (chart : List NoteData) (active : List ℕ) (idx : ℕ) (note : NoteData)
    (hnodup : active.Nodup) (hmem : idx ∈ active)
    (hidx : chart[idx]? = some note)
    (hhit : note.hit = false) (hmiss : note.missed = false) :
    (currentZ time note > Constants.PLAYER_Z - 6 / 5 →
      currentZ time note < Constants.PLAYER_Z + 3 / 5 →
      ∀ handPos, handFor hands note.type = some handPos →
      distSq handPos (noteAnchor lanePos note (currentZ time note)) < (11 / 10) ^ 2 →
      (judgeLoop lanePos hands time chart active).1[idx]? =
          some { note with hit := true, hitTime := some time } ∧
        GameEvent.hit note.id ∈ (judgeLoop lanePos hands time chart active).2.2 ∧
        idx ∉ (judgeLoop lanePos hands time chart active).2.1) ∧
    (time = note.time →
      handFor hands note.type = some (noteAnchor lanePos note (currentZ time note)) →
      (judgeLoop lanePos hands time chart active).1[idx]? =
          some { note with hit := true, hitTime := some time } ∧
        GameEvent.hit note.id ∈ (judgeLoop lanePos hands time chart active).2.2) ∧
    (handFor hands note.type = none →
      (∀ n, (judgeLoop lanePos hands time chart active).1[idx]? = some n →
        n.hit = false) ∧
      (time > note.time + Constants.MISS_Z / Constants.NOTE_SPEED →
        (judgeLoop lanePos hands time chart active).1[idx]? =
            some { note with missed := true } ∧
          GameEvent.miss note.id ∈ (judgeLoop lanePos hands time chart active).2.2 ∧
          idx ∉ (judgeLoop lanePos hands time chart active).2.1)) := by
  have hskip : (note.hit || note.missed) ≠ true := by simp [hhit, hmiss]
  have main : ∀ handPos : Vec3, handFor hands note.type = some handPos →
      currentZ time note > Constants.PLAYER_Z - 6 / 5 →
      currentZ time note < Constants.PLAYER_Z + 3 / 5 →
      distSq handPos (noteAnchor lanePos note (currentZ time note)) < (11 / 10) ^ 2 →
      (judgeLoop lanePos hands time chart active).1[idx]? =
          some { note with hit := true, hitTime := some time } ∧
        GameEvent.hit note.id ∈ (judgeLoop lanePos hands time chart active).2.2 ∧
        idx ∉ (judgeLoop lanePos hands time chart active).2.1 := by
    intro handPos hhp hw1 hw2 hdist
    have hnm : ¬ currentZ time note > Constants.MISS_Z := by
      unfold Constants.MISS_Z
      unfold Constants.PLAYER_Z at hw2
      linarith
    have hj : judgeOne lanePos hands time note =
        ({ note with hit := true, hitTime := some time }, false,
          some (.hit note.id)) := by
      unfold judgeOne
      rw [if_neg hskip, if_neg hnm, if_pos ⟨hw1, hw2⟩, hhp]
      dsimp only
      rw [if_pos hdist]
    obtain ⟨h1, h2, h3⟩ :=
      judgeLoop_spec lanePos hands time active chart idx note hnodup hmem hidx
    rw [hj] at h1 h2 h3
    exact ⟨h1, h2 _ rfl, h3 rfl⟩
  refine ⟨fun hw1 hw2 handPos hhp hdist => main handPos hhp hw1 hw2 hdist,
    fun htime hhp => ?_, fun hnone => ⟨?_, fun hlate => ?_⟩⟩
  · have hz : currentZ time note = 0 := by
      unfold currentZ Constants.PLAYER_Z Constants.NOTE_SPEED
      rw [htime]
      ring
    have hres := main (noteAnchor lanePos note (currentZ time note)) hhp
      (by rw [hz]; unfold Constants.PLAYER_Z; norm_num)
      (by rw [hz]; unfold Constants.PLAYER_Z; norm_num)
      (by unfold distSq; norm_num)
    exact ⟨hres.1, hres.2.1⟩
  · intro n hn
    have hj1 : (judgeOne lanePos hands time note).1.hit = false := by
      unfold judgeOne
      rw [if_neg hskip]
      split
      · exact hhit
      · split
        · rw [hnone]
          exact hhit
        · exact hhit
    obtain ⟨h1, _, _⟩ :=
      judgeLoop_spec lanePos hands time active chart idx note hnodup hmem hidx
    rw [h1] at hn
    injection hn with hn
    rw [← hn]
    exact hj1
  · have hgt : currentZ time note > Constants.MISS_Z := by
      have h5 : Constants.MISS_Z = 5 := rfl
      have h12 : Constants.NOTE_SPEED = 12 := rfl
      have h0 : Constants.PLAYER_Z = 0 := rfl
      rw [h5, h12] at hlate
      unfold currentZ
      rw [h5, h12, h0]
      linarith
    have hj : judgeOne lanePos hands time note =
        ({ note with missed := true }, false, some (.miss note.id)) := by
      unfold judgeOne
      rw [if_neg hskip, if_pos hgt]
    obtain ⟨h1, h2, h3⟩ :=
      judgeLoop_spec lanePos hands time active chart idx note hnodup hmem hidx
    rw [hj] at h1 h2 h3
    exact ⟨h1, h2 _ rfl, h3 rfl⟩

/-- Witness for C1: a single left note at its nominal hit depth with the left
hand exactly on its anchor is hit and a `Hit` event is emitted. -/
theorem judgement_engine_witness :
    (judgeLoop (fun _ => (0, 0)) ⟨some ⟨0, 0, 0⟩, none⟩ 1
        [{ id := 7, time := 1, lineIndex := 0, type := .left,
           cutDirection := .any }] [0]).1[0]? =
      some { id := 7, time := 1, lineIndex := 0, type := .left,
             cutDirection := .any, hit := true, hitTime := some 1 } ∧
    GameEvent.hit 7 ∈ (judgeLoop (fun _ => (0, 0)) ⟨some ⟨0, 0, 0⟩, none⟩ 1
        [{ id := 7, time := 1, lineIndex := 0, type := .left,
           cutDirection := .any }] [0]).2.2 :=
  (judgement_engine (fun _ => (0, 0)) ⟨some ⟨0, 0, 0⟩, none⟩ 1
    [{ id := 7, time := 1, lineIndex := 0, type := .left, cutDirection := .any }]
    [0] 0
    { id := 7, time := 1, lineIndex := 0, type := .left, cutDirection := .any }
    (by simp) (by simp) rfl rfl rfl).2.1 rfl (by with_unfolding_all rfl)

theorem noteRel_refl (n : NoteData) : NoteRel n n := ⟨id, fun _ => rfl⟩

theorem noteRel_trans {a b c : NoteData} (h1 : NoteRel a b) (h2 : NoteRel b c) :
    NoteRel a c := by
  refine ⟨fun hi => h2.1 (h1.1 hi), fun hr => ?_⟩
  have hb := h1.2 hr
  have hc := h2.2 (by rw [hb]; exact hr)
  rw [hc, hb]

theorem judgeOne_rel (lanePos : ℕ → ℚ × ℚ) (hands : Hands) (time : ℚ)
    (n : NoteData) : NoteRel n (judgeOne lanePos hands time n).1 := by
  by_cases hres : n.hit = true ∨ n.missed = true
  · have hb : (n.hit || n.missed) = true := by
      rcases hres with h | h <;> simp [h]
    unfold judgeOne
    rw [if_pos hb]
    exact noteRel_refl n
  · push_neg at hres
    have hh : n.hit = false := by
      cases hhit : n.hit
      · rfl
      · exact absurd hhit hres.1
    have hm : n.missed = false := by
      cases hmiss : n.missed
      · rfl
      · exact absurd hmiss hres.2
    have hb : (n.hit || n.missed) ≠ true := by simp [hh, hm]
    unfold judgeOne
    rw [if_neg hb]
    refine ⟨fun hi => ?_, fun hr => ?_⟩
    swap
    · exact absurd hr (by simp [hh, hm])
    · split
      · exact ⟨by simp [hh], by simp [hi.2, hh]⟩
      · split
        · cases handFor hands n.type with
          | none => exact hi
          | some hp =>
            dsimp only
            split
            · exact ⟨by simp [hm], by simp⟩
            · exact hi
        · exact hi

theorem judgeLoop_rel (lanePos : ℕ → ℚ × ℚ) (hands : Hands) (time : ℚ) :
    ∀ (active : List ℕ) (chart : List NoteData) (idx : ℕ) (n : NoteData),
      chart[idx]? = some n →
      ∃ n', (judgeLoop lanePos hands time chart active).1[idx]? = some n' ∧
        NoteRel n n' := by
  intro active
  induction active with
  | nil => intro chart idx n h; exact ⟨n, h, noteRel_refl n⟩
  | cons a rest ih =>
    intro chart idx n h
    obtain ⟨n1, h1, r1⟩ := ih chart idx n h
    cases hsc : (judgeLoop lanePos hands time chart rest).1[a]? with
    | none =>
      refine ⟨n1, ?_, r1⟩
      simp only [judgeLoop, hsc]
      exact h1
    | some na =>
      by_cases heq : a = idx
      · subst heq
        rw [h1] at hsc
        injection hsc with hsc
        subst hsc
        have hlt : a < (judgeLoop lanePos hands time chart rest).1.length :=
          (List.getElem?_eq_some.mp h1).1
        refine ⟨(judgeOne lanePos hands time n1).1, ?_,
          noteRel_trans r1 (judgeOne_rel lanePos hands time n1)⟩
        simp only [judgeLoop, h1]
        exact List.getElem?_set_self hlt
      · refine ⟨n1, ?_, r1⟩
        simp only [judgeLoop, hsc]
        rw [List.getElem?_set_ne heq]
        exact h1

theorem genStep_unresolved (rng : ℕ → ℚ) (bt i : ℚ) (idc ri : ℕ) :
    ∀ x ∈ (genStep rng bt i idc ri).1,
      x.hit = false ∧ x.hitTime = none ∧ x.missed = false := by
  intro x hx
  unfold genStep at hx
  by_cases h0 : (⌊i / 8⌋ % 4 : ℤ) = 0
  · rw [if_pos h0] at hx
    simp only [List.mem_singleton] at hx
    subst hx
    exact ⟨rfl, rfl, rfl⟩
  · rw [if_neg h0] at hx
    by_cases h1 : (⌊i / 8⌋ % 4 : ℤ) = 1
    · rw [if_pos h1] at hx
      by_cases hq : qmod i 3 = 0
      · rw [if_pos hq] at hx
        simp only [List.mem_cons, List.mem_singleton, List.not_mem_nil,
          or_false] at hx
        rcases hx with h | h <;> subst h <;> exact ⟨rfl, rfl, rfl⟩
      · rw [if_neg hq] at hx
        exact absurd hx (List.not_mem_nil x)
    · rw [if_neg h1] at hx
      by_cases h2 : (⌊i / 8⌋ % 4 : ℤ) = 2
      · rw [if_pos h2] at hx
        by_cases hq : qmod i 2 = 0
        · rw [if_pos hq] at hx
          simp only [List.mem_singleton] at hx
          subst hx
          exact ⟨rfl, rfl, rfl⟩
        · rw [if_neg hq] at hx
          exact absurd hx (List.not_mem_nil x)
      · rw [if_neg h2] at hx
        by_cases hq : qmod i 4 = 0
        · rw [if_pos hq] at hx
          simp only [List.mem_cons, List.mem_singleton, List.not_mem_nil,
            or_false] at hx
          rcases hx with h | h <;> subst h <;> exact ⟨rfl, rfl, rfl⟩
        · rw [if_neg hq] at hx
          exact absurd hx (List.not_mem_nil x)

theorem genLoop_unresolved (rng : ℕ → ℚ) (bt : ℚ) :
    ∀ (k idc ri : ℕ) (x : NoteData), x ∈ genLoop rng bt k idc ri →
      x.hit = false ∧ x.hitTime = none ∧ x.missed = false := by
  have H : ∀ (m k idc ri : ℕ), 131 - k ≤ m → ∀ (x : NoteData),
      x ∈ genLoop rng bt k idc ri →
      x.hit = false ∧ x.hitTime = none ∧ x.missed = false := by
    intro m
    induction m with
    | zero =>
      intro k idc ri hk x hx
      rw [genLoop.eq_def] at hx
      rw [dif_neg] at hx
      · exact absurd hx (List.not_mem_nil x)
      · push_neg
        have hk' : (131 : ℚ) ≤ (k : ℚ) := by exact_mod_cast by omega
        linarith
    | succ m ihm =>
      intro k idc ri hk x hx
      rw [genLoop.eq_def] at hx
      by_cases hc : (4 + 3 / 2 * (k : ℚ)) < 200
      · rw [dif_pos hc] at hx
        simp only [List.mem_append] at hx
        rcases hx with h | h
        · exact genStep_unresolved rng bt _ _ _ x h
        · exact ihm (k + 1) _ _ (by omega) x h
      · rw [dif_neg hc] at hx
        exact absurd hx (List.not_mem_nil x)
  intro k idc ri x hx
  exact H (131 - k) k idc ri (le_refl _) x hx

/-- C2: per-note lifecycle invariants across a frame tick: for every note of
the chart there is an updated note in the new chart such that the invariant
(never both `hit` and `missed`; `hitTime` set iff `hit`) is preserved, and a
note already flagged `hit` or `missed` is left completely unchanged (the
loop skips it), so a note transitions at most once; moreover every freshly
generated chart satisfies the invariant, giving it at every point of a
session by induction over ticks. -/
theorem note_lifecycle (lanePos : ℕ → ℚ × ℚ) (hands : Hands) (time : ℚ)
    (st : SceneState) (idx : ℕ) (n : NoteData)
    (h : st.chart[idx]? = some n) :
    (∃ n', (frameStep lanePos hands time st).1.chart[idx]? = some n' ∧
      (NoteInv n → NoteInv n') ∧
      ((n.hit = true ∨ n.missed = true) → n' = n)) ∧
    (∀ (rng : ℕ → ℚ) (a : NoteData), a ∈ generateDemoChart rng → NoteInv a) := by
  constructor
  · obtain ⟨n', h1, r⟩ := judgeLoop_rel lanePos hands time
      ((admitLoop st.chart time st.nextNoteIndex st.active).2) st.chart idx n h
    exact ⟨n', h1, r.1, r.2⟩
  · intro rng a ha
    rw [generateDemoChart, generateDemoChartBpm, List.mem_mergeSort] at ha
    have hu := genLoop_unresolved rng (60 / Constants.SONG_BPM) 0 0 0 a ha
    exact ⟨by simp [hu.1], by simp [hu.2.1, hu.1]⟩

/-- Witness for C2: one unresolved note with no hands present survives a
frame tick unchanged and keeps the invariant. -/
theorem note_lifecycle_witness :
    (frameStep (fun _ => (0, 0)) ⟨none, none⟩ 0
        ⟨[{ id := 3, time := 0, lineIndex := 0, type := Hand.left, cutDirection := CutDirection.any }], [0], 0⟩).1.chart[0]? =
      some { id := 3, time := 0, lineIndex := 0, type := Hand.left, cutDirection := CutDirection.any } ∧
    NoteInv { id := 3, time := 0, lineIndex := 0, type := Hand.left, cutDirection := CutDirection.any } := by
  have hbase :
      NoteInv { id := 3, time := 0, lineIndex := 0, type := Hand.left, cutDirection := CutDirection.any } :=
    ⟨by simp, by simp⟩
  obtain ⟨n', h1, hinv, _⟩ := (note_lifecycle (fun _ => (0, 0)) ⟨none, none⟩ 0
      ⟨[{ id := 3, time := 0, lineIndex := 0, type := Hand.left, cutDirection := CutDirection.any }], [0], 0⟩ 0
      { id := 3, time := 0, lineIndex := 0, type := Hand.left, cutDirection := CutDirection.any }
      (by with_unfolding_all rfl)).1
  have hconc : (frameStep (fun _ => (0, 0)) ⟨none, none⟩ 0
      ⟨[{ id := 3, time := 0, lineIndex := 0, type := Hand.left, cutDirection := CutDirection.any }], [0], 0⟩).1.chart[0]? =
      some { id := 3, time := 0, lineIndex := 0, type := Hand.left, cutDirection := CutDirection.any } := by
    with_unfolding_all rfl
  rw [h1] at hconc
  injection hconc with he
  exact ⟨by with_unfolding_all rfl, he ▸ hinv hbase⟩

/-- C3: the admission loop is monotonic and admits exactly once: the read
index never decreases; the admitted indices are exactly the contiguous block
`[idx, out.1)` appended to the active list; every admitted note satisfies
`note.time - spawnAheadTime ≤ time` (i.e. `currentTime ≥ time -
spawnLookahead`); when the active list mentions only already-read indices
and has no duplicates, the new active list still has no duplicates (each
chart note is admitted at most once) and mentions only read indices; and a
full `frameStep` never decreases the read index. -/
theorem scheduler_admission (chart : List NoteData) (time : ℚ) (idx : ℕ)
    (active : List ℕ) :
    idx ≤ (admitLoop chart time idx active).1 ∧
    (admitLoop chart time idx active).2 =
      active ++ List.range' idx ((admitLoop chart time idx active).1 - idx) ∧
    (∀ j, idx ≤ j → j < (admitLoop chart time idx active).1 →
      ∃ a, chart[j]? = some a ∧ a.time - spawnAheadTime ≤ time) ∧
    ((∀ j ∈ active, j < idx) → active.Nodup →
      (admitLoop chart time idx active).2.Nodup ∧
      ∀ j ∈ (admitLoop chart time idx active).2,
        j < (admitLoop chart time idx active).1) ∧
    (∀ (lanePos : ℕ → ℚ × ℚ) (hands : Hands) (st : SceneState),
      st.nextNoteIndex ≤ (frameStep lanePos hands time st).1.nextNoteIndex) := by
  have main : ∀ (ch : List NoteData) (m idx0 : ℕ) (act : List ℕ),
      ch.length - idx0 ≤ m →
      idx0 ≤ (admitLoop ch time idx0 act).1 ∧
      (admitLoop ch time idx0 act).2 =
        act ++ List.range' idx0 ((admitLoop ch time idx0 act).1 - idx0) ∧
      (∀ j, idx0 ≤ j → j < (admitLoop ch time idx0 act).1 →
        ∃ a, ch[j]? = some a ∧ a.time - spawnAheadTime ≤ time) ∧
      ((∀ j ∈ act, j < idx0) → act.Nodup →
        (admitLoop ch time idx0 act).2.Nodup ∧
        ∀ j ∈ (admitLoop ch time idx0 act).2,
          j < (admitLoop ch time idx0 act).1) := by
    intro ch m
    induction m with
    | zero =>
      intro idx0 act hm
      have hge : ¬ idx0 < ch.length := by omega
      rw [admitLoop.eq_def, dif_neg hge]
      exact ⟨le_refl idx0, by simp, fun j hj1 hj2 => absurd hj2 (by omega),
        fun hb hnd => ⟨hnd, hb⟩⟩
    | succ m ihm =>
      intro idx0 act hm
      by_cases hlt : idx0 < ch.length
      · by_cases hcond : (ch.get ⟨idx0, hlt⟩).time - spawnAheadTime ≤ time
        · rw [admitLoop.eq_def, dif_pos hlt, if_pos hcond]
          obtain ⟨ih1, ih2, ih3, ih4⟩ := ihm (idx0 + 1) (act ++ [idx0]) (by omega)
          refine ⟨by omega, ?_, ?_, ?_⟩
          · rw [ih2, List.append_assoc]
            have hn : (admitLoop ch time (idx0 + 1) (act ++ [idx0])).1 - idx0 =
                ((admitLoop ch time (idx0 + 1) (act ++ [idx0])).1 - (idx0 + 1)) + 1 := by
              omega
            rw [hn, List.range'_succ]
            rfl
          · intro j hj1 hj2
            rcases Nat.eq_or_lt_of_le hj1 with heq | hlt2
            · subst heq
              exact ⟨ch.get ⟨idx0, hlt⟩, List.getElem?_eq_some.mpr ⟨hlt, rfl⟩, hcond⟩
            · exact ih3 j hlt2 hj2
          · intro hb hnd
            refine ih4 (fun j hj => ?_) ?_
            · rcases List.mem_append.mp hj with h | h
              · exact Nat.lt_succ_of_lt (hb j h)
              · simp only [List.mem_singleton] at h
                omega
            · rw [List.nodup_append]
              refine ⟨hnd, List.nodup_singleton idx0, fun j hj hj2 => ?_⟩
              simp only [List.mem_singleton] at hj2
              subst hj2
              exact Nat.lt_irrefl j (hb j hj)
        · rw [admitLoop.eq_def, dif_pos hlt, if_neg hcond]
          exact ⟨le_refl idx0, by simp, fun j hj1 hj2 => absurd hj2 (by omega),
            fun hb hnd => ⟨hnd, hb⟩⟩
      · rw [admitLoop.eq_def, dif_neg hlt]
        exact ⟨le_refl idx0, by simp, fun j hj1 hj2 => absurd hj2 (by omega),
          fun hb hnd => ⟨hnd, hb⟩⟩
  obtain ⟨m1, m2, m3, m4⟩ := main chart chart.length idx active (by omega)
  refine ⟨m1, m2, m3, m4, fun lanePos hands st => ?_⟩
  exact (main st.chart st.chart.length st.nextNoteIndex st.active (by omega)).1

/-- Witness for C3: admitting a single note whose spawn time has been
reached. -/
theorem scheduler_admission_witness :
    (admitLoop [{ id := 0, time := 2, lineIndex := 0, type := Hand.left, cutDirection := CutDirection.any }] 0 0 []).2 =
      [] ++ List.range' 0
        ((admitLoop [{ id := 0, time := 2, lineIndex := 0, type := Hand.left, cutDirection := CutDirection.any }] 0 0 []).1 - 0) ∧
    (admitLoop [{ id := 0, time := 2, lineIndex := 0, type := Hand.left, cutDirection := CutDirection.any }] 0 0 []).2.Nodup :=
  ⟨(scheduler_admission [{ id := 0, time := 2, lineIndex := 0, type := Hand.left, cutDirection := CutDirection.any }] 0 0 []).2.1,
   ((scheduler_admission [{ id := 0, time := 2, lineIndex := 0, type := Hand.left, cutDirection := CutDirection.any }] 0 0 []).2.2.2.1
      (fun j hj => absurd hj (List.not_mem_nil j)) List.nodup_nil).1⟩
